import Mathlib

/-!
Verification of the SEAL core (seal-parse.cpp, seal.hpp, the Matroska
handler) against its natural-language specification.

The C code is shallowly embedded: byte buffers are `List Nat` (each entry a
byte value; reads reduce modulo 256 where the C type is `byte`), machine
integers are `Nat` (with explicit wrap where the C arithmetic can overflow),
fallible operations return `Option`, and the `sealfield` store is an ordered
list of fields.  The `sealfield` implementation itself is not part of the
provided sources (only its header seal.hpp is), so the store operations are
modelled from the specification, section 3 and 4.1; everything else is
translated directly from the C sources.
-/

/-! ### ASCII character class helpers (ctype.h, C locale) -/

def isdigitB (c : Nat) : Bool := decide (48 ≤ c ∧ c ≤ 57)

def isupperB (c : Nat) : Bool := decide (65 ≤ c ∧ c ≤ 90)

def islowerB (c : Nat) : Bool := decide (97 ≤ c ∧ c ≤ 122)

def isalphaB (c : Nat) : Bool := isupperB c || islowerB c

def isalnumB (c : Nat) : Bool := isalphaB c || isdigitB c

def isxdigitB (c : Nat) : Bool :=
  isdigitB c || decide (65 ≤ c ∧ c ≤ 70) || decide (97 ≤ c ∧ c ≤ 102)

def isspaceB (c : Nat) : Bool := decide (c = 32 ∨ (9 ≤ c ∧ c ≤ 13))

/-- C `strchr(set, c) != NULL` for a character `c`: a NUL byte always
matches, because `strchr` also finds the terminating NUL of `set`. -/
def strchrB (set : List Nat) (c : Nat) : Bool := c == 0 || set.contains c

/-- Bytes of an ASCII string literal. -/
def nm (s : String) : List Nat := s.data.map Char.toNat

/-- `memcmp(l + i, pat, n) == 0`: the `n` bytes of `l` starting at `i`. -/
def sub (l : List Nat) (i n : Nat) : List Nat := (l.drop i).take n

/-! ### EBML variable-length integer codec (_MaReadData / _MaWriteData)

From the Matroska handler.  `_MaReadData` returns the C sentinel
`(size_t)(-1)` for "invalid"; the embedding returns `none` for it, paired
with the updated offset. -/

/-- The bit scan `for(b=0; (b < 8) && !(Dat & (1<<(7-b))); b++);`,
with the `b < 8` bound rendered as fuel (8 iterations starting at 0). -/
def findBGo (Dat : Nat) : Nat → Nat → Nat
  | 0, b => b
  | f+1, b => if Dat &&& (1 <<< (7 - b)) = 0 then findBGo Dat f (b + 1) else b

def findB (Dat : Nat) : Nat := findBGo Dat 8 0

/-- The continuation-byte loop of `_MaReadData`:
`while((b >= 0) && (Offset[0] < Mmap->memsize)) { Val <<= 8; Val |= mem[Offset]; b--; Offset++; }`.
The first argument is the number of iterations left (the C loop runs from
`b-1` down to `0` after the initial `b--`, i.e. `b` times at most).
`Val <<= 8; Val |= byte` is `Val * 256 + byte` since the byte is below 256
and the shifted value has zero low bits; `Val` never exceeds 2^63 so the
`size_t` arithmetic does not wrap. -/
def _MaReadLoop (Mmap : List Nat) : Nat → Nat → Nat → Nat × Nat
  | 0, Offset, Val => (Val, Offset)
  | b+1, Offset, Val =>
      if Offset < Mmap.length then
        _MaReadLoop Mmap b (Offset + 1) (Val * 256 + Mmap.getD Offset 0 % 256)
      else (Val, Offset)

/-- The value/offset pair computed by `_MaReadData` once the leading byte is
known valid: `Val = Dat & ~(0xff << (7-b))` on a byte keeps exactly the bits
below `7 - b`, i.e. `Dat &&& (2^(7-b) - 1)`, then the continuation loop
runs. -/
def maReadRaw (Mmap : List Nat) (Offset : Nat) : Nat × Nat :=
  _MaReadLoop Mmap (findB (Mmap.getD Offset 0 % 256)) (Offset + 1)
    ((Mmap.getD Offset 0 % 256) &&& (2 ^ (7 - findB (Mmap.getD Offset 0 % 256)) - 1))

/-- `_MaReadData()`: read a variable-length value, updating the offset.
`none` models the `(size_t)(-1)` invalid sentinel. -/
def _MaReadData (Mmap : List Nat) (Offset : Nat) : Option Nat × Nat :=
  if Mmap.length ≤ Offset then (none, Offset)
  else if Mmap.getD Offset 0 % 256 = 0 then (none, Offset)
  else (some (maReadRaw Mmap Offset).1, (maReadRaw Mmap Offset).2)

/-- The byte-count loop of `_MaWriteData`:
`num_bytes=1; MaxValue=127; while((num_bytes < 8) && (Value >= MaxValue)) { MaxValue = (MaxValue<<7) | 0xff; num_bytes++; }`,
with the `num_bytes < 8` bound also limiting the fuel (7 iterations). -/
def numBytesGo (Value : Nat) : Nat → Nat → Nat → Nat
  | 0, num, _ => num
  | f+1, num, Max =>
      if num < 8 ∧ Max ≤ Value then numBytesGo Value f (num + 1) ((Max <<< 7) ||| 0xff)
      else num

def numBytes (Value : Nat) : Nat := numBytesGo Value 7 1 127

/-- The byte-write loop of `_MaWriteData`:
`for(i=1; i < num_bytes; i++) { v->Value[num_bytes - i] = Value & 0xFF; Value >>= 8; }`
fills slots `num_bytes-1, num_bytes-2, …, 1` with the successive low bytes
of `Value`; read back in slot order that is this append-built list. -/
def _MaWriteTail (Value : Nat) : Nat → List Nat
  | 0 => []
  | n+1 => _MaWriteTail (Value >>> 8) n ++ [Value &&& 0xff]

/-- The byte buffer produced by `_MaWriteData`: slot 0 is
`(1 << (8 - num_bytes)) | (Value' & 0xFF & mask)` where `Value'` is `Value`
shifted right 8 bits per loop iteration and `mask` is `0xff` shifted right
once per iteration; slots 1.. are the write loop above. -/
def maWriteBytes (Value : Nat) : List Nat :=
  ((1 <<< (8 - numBytes Value)) |||
      ((Value >>> (8 * (numBytes Value - 1))) &&& 0xff &&& (0xff >>> (numBytes Value - 1))))
    :: _MaWriteTail Value (numBytes Value - 1)

/-! ### The sealfield store

Only the header seal.hpp of the store implementation is in the sources.
Each store operation below is modelled from the specification: the store is
an ordered collection of uniquely-named fields, re-setting a name overwrites
in place, and indexed `size_t` pseudo-arrays auto-grow zero-filled
(spec section 3 and 4.1).  A NULL store pointer is the empty list.  Values
are either raw bytes or a `size_t` array (the C code keeps both in one byte
buffer; the element interpretation is fixed by the accessors used). -/

inductive SealValue where
  | bytes : List Nat → SealValue
  | ints : List Nat → SealValue
deriving DecidableEq, Repr

/-- One field of the store: type tag (ASCII: 99=c text, 120=x binary,
73=I size_t array), name bytes, value. -/
structure sealfield where
  ftype : Nat
  fname : List Nat
  value : SealValue
deriving DecidableEq, Repr

abbrev Store := List sealfield

/-- Modelled from the spec: lookup by name (first and only match). -/
def SealSearch (st : Store) (f : List Nat) : Option sealfield :=
  st.find? (fun fl => fl.fname == f)

/-- Modelled from the spec: set a field, overwriting in place when the name
exists, appending otherwise. -/
def setFieldVal (st : Store) (f : List Nat) (t : Nat) (v : SealValue) : Store :=
  if (SealSearch st f).isSome then
    st.map (fun fl => if fl.fname == f then ⟨t, f, v⟩ else fl)
  else st ++ [⟨t, f, v⟩]

/-- `SealSetTextLen`: store text bytes under a name (type tag 'c'). -/
def SealSetTextLen (st : Store) (f : List Nat) (v : List Nat) : Store :=
  setFieldVal st f 99 (.bytes v)

/-- `SealGetText`: the byte value of a field; empty for absent fields
(the C code returns NULL and callers treat it as no text). -/
def SealGetText (st : Store) (f : List Nat) : List Nat :=
  match SealSearch st f with
  | some ⟨_, _, .bytes b⟩ => b
  | _ => []

/-- `SealDel`: remove a field. -/
def SealDel (st : Store) (f : List Nat) : Store :=
  st.filter (fun fl => fl.fname ≠ f)

/-- The `size_t` array stored under a name (empty for absent/non-array). -/
def SealGetIarr (st : Store) (f : List Nat) : List Nat :=
  match SealSearch st f with
  | some ⟨_, _, .ints l⟩ => l
  | _ => []

/-- `SealGetIindex`: element of a `size_t` pseudo-array, 0 when absent. -/
def SealGetIindex (st : Store) (f : List Nat) (idx : Nat) : Nat :=
  (SealGetIarr st f).getD idx 0

/-- `SealSetIindex`: set an element of a `size_t` pseudo-array, growing it
zero-filled to `idx+1` elements as needed (type tag 'I'). -/
def SealSetIindex (st : Store) (f : List Nat) (idx : Nat) (v : Nat) : Store :=
  setFieldVal st f 73
    (.ints (((SealGetIarr st f) ++ List.replicate (idx + 1 - (SealGetIarr st f).length) 0).set idx v))

/-- `SealCopy2(dst, f2, src, f1)`: copy field `f1` of `src` into `dst` under
the name `f2`; modelled as a no-op when the source field is absent. -/
def SealCopy2 (dst : Store) (f2 : List Nat) (src : Store) (f1 : List Nat) : Store :=
  match SealSearch src f1 with
  | some fl => setFieldVal dst f2 fl.ftype fl.value
  | none => dst

/-- Apply an in-place byte transform (the codecs below) to the value of one
field, as the C code does via the pointer returned by `SealSearch`. -/
def updateFieldBytes (st : Store) (f : List Nat) (fn : List Nat → List Nat) : Store :=
  st.map (fun fl =>
    if fl.fname == f then
      match fl.value with
      | .bytes b => ⟨fl.ftype, fl.fname, .bytes (fn b)⟩
      | v => ⟨fl.ftype, fl.fname, v⟩
    else fl)

/-- `_MaWriteData()`: store the EBML encoding of `Value` under `Field`
(`SealAlloc` with type 'x' followed by the byte writes of `maWriteBytes`). -/
def _MaWriteData (Rec : Store) (Field : List Nat) (Value : Nat) : Store :=
  setFieldVal Rec Field 120 (.bytes (maWriteBytes Value))

/-! ### SealStrDecode / SealStrEncode (backslash-quote codec) -/

/-- `SealStrDecode()`: remove backslash quoting.  The C loop
`for(i=j=0; i < len; i++,j++) { if (V[i]=='\\') i++; if (i!=j) V[j]=V[i]; }`
consumes a backslash together with the byte after it; when the backslash is
the last byte, `V[i]` reads the NUL padding that follows every sealfield
value, producing a 0 byte. -/
def SealStrDecode : List Nat → List Nat
  | [] => []
  | c :: rest =>
      if c = 92 then
        match rest with
        | [] => [0]
        | d :: rest2 => d :: SealStrDecode rest2
      else c :: SealStrDecode rest

/-- One byte of `SealStrEncode` output: `strchr("'\"", c)` matches the two
quote characters and the NUL terminator of the set. -/
def sealStrEsc (c : Nat) : List Nat :=
  if c = 39 ∨ c = 34 ∨ c = 0 then [92, c] else [c]

/-- `SealStrEncode()`: insert a backslash before every quote character.  The
C code counts the characters needing escapes, grows the buffer, and copies
right-to-left inserting a backslash before each match; the result is the
per-byte expansion below. -/
def SealStrEncode (l : List Nat) : List Nat :=
  l.foldr (fun c acc => sealStrEsc c ++ acc) []

/-! ### SealXmlDecode (XML entity codec) -/

/-- The named-entity table, with each code given as exactly the `len` bytes
that `memcmp` compares: for `&lt;` and `&gt;` the stored length 5 exceeds
the string length 4, so the comparison includes the terminating NUL byte. -/
def entities : List (Nat × List Nat × Nat) :=
  [(5, [38, 108, 116, 59, 0], 60),
   (5, [38, 103, 116, 59, 0], 62),
   (6, nm "&quot;", 34),
   (6, nm "&apos;", 39),
   (5, nm "&amp;", 38)]

/-- First entity of the table matching at position `i` (length, character). -/
def xmlFindEntity (V : List Nat) (i : Nat) : List (Nat × List Nat × Nat) → Option (Nat × Nat)
  | [] => none
  | (len, code, c) :: rest =>
      if i + len ≤ V.length ∧ sub V i len = code then some (len, c)
      else xmlFindEntity V i rest

/-- Signed 32-bit comparison `(int)rep > bound` for `0 ≤ bound < 2^31`,
where `rep` is the two's-complement bit pattern of the C `int n`. -/
def int32Gt (rep bound : Nat) : Bool := decide (bound < rep ∧ rep < 2 ^ 31)

/-- Hex-digit accumulation `n = n*16 + digit` on the 32-bit `int n`
(kept as a bit pattern modulo 2^32). -/
def hexAcc (n c : Nat) : Nat :=
  (n * 16 + (if isdigitB c then c - 48 else if isupperB c then c - 65 + 10 else c - 97 + 10)) % 2 ^ 32

/-- Decimal accumulation `n = n*10 + digit` on the 32-bit `int n`. -/
def decAcc (n c : Nat) : Nat := (n * 10 + (c - 48)) % 2 ^ 32

/-- `for( ; (i < len) && isxdigit(V[i]); i++) { ... }` of the hex entity
branch; fuel-bounded (the index grows each step).  Returns the stop index
and the accumulated value. -/
def xmlHexGo (V : List Nat) : Nat → Nat → Nat → Nat × Nat
  | 0, i, n => (i, n)
  | f+1, i, n =>
      if i < V.length ∧ isxdigitB (V.getD i 0) then
        xmlHexGo V f (i + 1) (hexAcc n (V.getD i 0))
      else (i, n)

/-- The decimal-digit loop of the decimal entity branch. -/
def xmlDecGo (V : List Nat) : Nat → Nat → Nat → Nat × Nat
  | 0, i, n => (i, n)
  | f+1, i, n =>
      if i < V.length ∧ isdigitB (V.getD i 0) then
        xmlDecGo V f (i + 1) (decAcc n (V.getD i 0))
      else (i, n)

/-- The numeric-entity emit chain of `SealXmlDecode`: writes 4, 3, 2, 1 or 0
bytes at `j` (big-endian) depending on the signed comparisons on `n`, and
returns the buffer and the write index after the final `j++`. -/
def xmlEmit (V : List Nat) (j n : Nat) : List Nat × Nat :=
  if int32Gt n 0xffffff then
    (((((V.set j ((n >>> 24) &&& 255)).set (j+1) ((n >>> 16) &&& 255)).set
        (j+2) ((n >>> 8) &&& 255)).set (j+3) (n &&& 255)), j + 4)
  else if int32Gt n 0xffff then
    ((((V.set j ((n >>> 16) &&& 255)).set (j+1) ((n >>> 8) &&& 255)).set (j+2) (n &&& 255)), j + 3)
  else if int32Gt n 0xff then
    (((V.set j ((n >>> 8) &&& 255)).set (j+1) (n &&& 255)), j + 2)
  else if int32Gt n 0 then
    ((V.set j (n &&& 255)), j + 1)
  else (V, j)

/-- The main loop of `SealXmlDecode`, one fuel per outer iteration
(`for(i=j=0; i < ValueLen; i++,j++)`).  The body first copies `V[i]` to
`V[j]` when the indexes differ, then handles `&#x…;`, `&#…;`, and named
entities.  In the numeric branches the C code advances `i` past the
semicolon and the loop update advances it again, and each emitted byte does
`j++` with the loop update adding one more, so the recursion continues at
`(digits-end + 2, j-after-emit + 1)`. -/
def xmlDecodeGo (V : List Nat) : Nat → Nat → Nat → List Nat
  | 0, _, j => V.take j
  | f+1, i, j =>
      if i < V.length then
        let V0 := if i ≠ j then V.set j (V.getD i 0) else V
        if i + 5 ≤ V0.length ∧ sub V0 i 3 = nm "&#x" then
          let p := xmlHexGo V0 (V0.length + 1) (i + 3) 0
          let e := xmlEmit V0 j p.2
          xmlDecodeGo e.1 f (p.1 + 2) (e.2 + 1)
        else if i + 4 ≤ V0.length ∧ sub V0 i 2 = nm "&#" then
          let p := xmlDecGo V0 (V0.length + 1) (i + 2) 0
          let e := xmlEmit V0 j p.2
          xmlDecodeGo e.1 f (p.1 + 2) (e.2 + 1)
        else
          match xmlFindEntity V0 i entities with
          | some lc => xmlDecodeGo (V0.set j lc.2) f (i + lc.1) (j + 1)
          | none => xmlDecodeGo V0 f (i + 1) (j + 1)
      else V.take j

/-- `SealXmlDecode()`: convert `&entity;` to bytes, in place.  The final
`ValueLen = j` truncation is the `take`.  The index `i` grows by at least
one per iteration, so `len+1` fuel never runs out. -/
def SealXmlDecode (l : List Nat) : List Nat := xmlDecodeGo l (l.length + 1) 0 0

/-! ### SealParse (the record tokenizer)

The finite-state machine of `SealParse` is embedded one loop iteration per
fuel unit.  Every read `Text[i]` that the C code performs without a bounds
guard is modelled with `Text[i]?`; an out-of-range read aborts the run with
`.oob i`, so reachability of `.oob` is reachability of a read past
`TextLen` in the C code. -/

inductive ParseResult where
  | oob : Nat → ParseResult
  | fuelOut : ParseResult
  | out : Option Store → ParseResult
deriving DecidableEq, Repr

/-- The `Done:` label: when a record exists, `['@RecEnd']` is set to the
index where scanning stopped. -/
def parseDone (i : Nat) (Rec : Option Store) : ParseResult :=
  .out (Rec.map (fun r => SealSetIindex r (nm "@RecEnd") 0 i))

/-- `while((i < TextLen) && isalnum(Text[i])) i++;` (attribute name scan);
fuel-bounded, the index grows each step so `len+1` fuel never runs out. -/
def fieldScanGo (Text : List Nat) : Nat → Nat → Nat
  | 0, i => i
  | f+1, i =>
      if i < Text.length ∧ isalnumB (Text.getD i 0) then fieldScanGo Text f (i + 1) else i

def fieldScan (Text : List Nat) (i : Nat) : Nat := fieldScanGo Text (Text.length + 1) i

/-- Outcome of the attribute-value scan loop (State 2's inner `for`):
`found ve next` is the `State=3; break` exit carrying the value end and the
index after the delimiter; `ended i` is exhaustion of `i < TextLen`. -/
inductive VScan where
  | found : Nat → Nat → VScan
  | ended : Nat → VScan
deriving DecidableEq, Repr

/-- The value scan: backslash skips the next byte (two steps forward in
total, one from the loop update); unquoted values end at `strchr(" <>", c)`
(which also matches a NUL byte); a quote character ends a matching-quote
value; `&quot;` ends an entity-quoted (`Quote==1`) value. -/
def valueScanGo (Text : List Nat) (Quote : Nat) : Nat → Nat → VScan
  | 0, i => .ended i
  | f+1, i =>
      if i < Text.length then
        if Text.getD i 0 = 92 then valueScanGo Text Quote f (i + 2)
        else if Quote = 0 ∧ strchrB [32, 60, 62] (Text.getD i 0) then .found i i
        else if Quote ≠ 1 ∧ Text.getD i 0 = Quote then .found i (i + 1)
        else if Quote = 1 ∧ i + 6 < Text.length ∧ sub Text i 6 = nm "&quot;" then .found i (i + 6)
        else valueScanGo Text Quote f (i + 1)
      else .ended i

def valueScan (Text : List Nat) (Quote i : Nat) : VScan :=
  valueScanGo Text Quote (Text.length + 2) i

/-- `while((i < TextLen) && (Text[i] != '>')) i++;` — first index holding
`'>'`, or `TextLen` when there is none. -/
def skipToGtGo (Text : List Nat) : Nat → Nat → Nat
  | 0, i => i
  | f+1, i =>
      if i < Text.length then
        if Text.getD i 0 = 62 then i else skipToGtGo Text f (i + 1)
      else i

def skipToGt (Text : List Nat) (i : Nat) : Nat := skipToGtGo Text (Text.length + 1) i

/-- One iteration of the `for(i=0; i < TextLen; i++)` machine of
`SealParse`, per fuel unit.  Arguments after the fuel: current index,
`State`, `fs`, `fe`, the record under construction (`NULL` = `none`), and
`IsBad`.  The `IsBad` block at the top of the C loop frees the record and
resets the state.  In State 1, `Text[i]=='<'` steps the index back one and
the loop update steps it forward again; `i--; State=0` after a bad
attribute likewise nets to re-scanning from the scan stop.  The unguarded C
reads are at the `=` check after the name scan, the value-end check after a
value, and the `'>'` check after the skip loop. -/
def parseLoop (Text : List Nat) (Offset : Nat) (Args : Store) :
    Nat → Nat → Nat → Nat → Nat → Option Store → Bool → ParseResult
  | 0, _, _, _, _, _, _ => .fuelOut
  | fuel+1, i, State, fs, fe, Rec, IsBad =>
      if i < Text.length then
        let Rec0 := if IsBad then none else Rec
        let State0 := if IsBad then 0 else State
        if State0 = 0 then
          if Text.getD i 0 ≠ 60 then parseLoop Text Offset Args fuel (i + 1) 0 fs fe Rec0 false
          else if i + 6 < Text.length ∧ sub Text i 5 = nm "<seal" ∧
              strchrB [62, 32] (Text.getD (i + 5) 0) then
            parseLoop Text Offset Args fuel (i + 6) 1 fs fe Rec0 false
          else if i + 10 < Text.length ∧ sub Text i 9 = nm "<xmp:seal" ∧
              strchrB [62, 32] (Text.getD (i + 9) 0) then
            parseLoop Text Offset Args fuel (i + 10) 1 fs fe Rec0 false
          else parseLoop Text Offset Args fuel (i + 1) 0 fs fe Rec0 true
        else if State0 = 1 then
          if isspaceB (Text.getD i 0) then parseLoop Text Offset Args fuel (i + 1) 1 fs fe Rec0 false
          else if Text.getD i 0 = 62 then parseDone i Rec0
          else if i + 1 < Text.length ∧ sub Text i 2 = nm "/>" then parseDone i Rec0
          else
            let p := if Text.getD i 0 = 60 then (i - 1, true) else (i, false)
            let Bad2 := if ¬ isalphaB (Text.getD p.1 0) then true else p.2
            let fe2 := fieldScan Text p.1
            match Text[fe2]? with
            | none => .oob fe2
            | some c2 =>
              if c2 = 61 then parseLoop Text Offset Args fuel (fe2 + 1) 2 p.1 fe2 Rec0 Bad2
              else parseLoop Text Offset Args fuel fe2 0 p.1 fe2 Rec0 Bad2
        else if State0 = 2 then
          let q1 := if strchrB [34, 39] (Text.getD i 0) then (Text.getD i 0, i + 1) else (0, i)
          let q2 :=
            if q1.2 + 6 < Text.length ∧ sub Text q1.2 6 = nm "&quot;" then (1, q1.2 + 6) else q1
          match valueScan Text q2.1 q2.2 with
          | .ended iend => parseLoop Text Offset Args fuel iend 2 fs fe Rec0 true
          | .found ve inext =>
            let vs := q2.2
            let Rec1 := SealSetTextLen (Rec0.getD []) (nm "@field") (sub Text fs (fe - fs))
            let Str := SealGetText Rec1 (nm "@field")
            let Rec2 :=
              if Str = nm "s" then
                let rA := SealSetIindex (SealSetIindex Rec1 (nm "@S") 0 vs) (nm "@S") 1 ve
                let rB := SealSetIindex (SealSetIindex rA (nm "@s") 0 (Offset + vs))
                    (nm "@s") 1 (Offset + ve)
                if Args ≠ [] then
                  let r1 := SealCopy2 rB (nm "@p") Args (nm "@s")
                  let r2 := SealSetIindex r1 (nm "@s") 2 (SealGetIindex Args (nm "@s") 2 + 1)
                  let r3 := SealCopy2 r2 (nm "@sflags") Args (nm "@sflags")
                  let r4 := SealCopy2 r3 (nm "@dnscachelast") Args (nm "@dnscachelast")
                  let r5 := SealCopy2 r4 (nm "@public") Args (nm "@public")
                  SealCopy2 r5 (nm "@publicbin") Args (nm "@publicbin")
                else rB
              else Rec1
            let Rec3 := SealSetTextLen Rec2 Str (sub Text vs (ve - vs))
            let Rec4 := if q2.1 ≠ 1 then updateFieldBytes Rec3 Str SealStrDecode
                        else updateFieldBytes Rec3 Str SealXmlDecode
            let Rec5 := SealDel Rec4 (nm "@field")
            match Text[inext]? with
            | none => .oob inext
            | some c3 =>
              if isspaceB c3 then
                parseLoop Text Offset Args fuel (inext + 1) 1 fs fe (some Rec5) false
              else if strchrB [60, 62, 47] c3 then
                let g := skipToGt Text inext
                match Text[g]? with
                | none => .oob g
                | some c4 => parseDone (if c4 = 62 then g + 1 else g) (some Rec5)
              else parseLoop Text Offset Args fuel (inext + 1) 3 fs fe (some Rec5) true
        else parseLoop Text Offset Args fuel (i + 1) State0 fs fe Rec0 true
      else parseDone i Rec

/-- `SealParse()`: scan a buffer for one SEAL record.  A NULL text pointer
or fewer than 10 bytes returns no record.  One outer-loop iteration can
repeat an index at most once (a State-1 `'<'` re-scan), so `2*len+4` fuel
never runs out. -/
def SealParse (Text : Option (List Nat)) (Offset : Nat) (Args : Store) : ParseResult :=
  match Text with
  | none => .out none
  | some t =>
      if t.length < 10 then .out none
      else parseLoop t Offset Args (2 * t.length + 4) 0 0 0 0 none false

/-! ### The Matroska walker (_Matroskawalk)

`SealVerify` is the external verification collaborator (out of scope of the
core, spec section 1); the walker is parameterized over it.  `Mmap` is the
mapped file: the byte list, with `memsize` its length.  A `SealParse`
outcome other than a found record stops the scan of the current chunk, as
the C `if (!Rec) break;` does. -/

def chunkSeal (SealVerify : Store → List Nat → Store) (Mmap : List Nat) (Offset iLen : Nat)
    (Args : Store) (ChunkOffset : Nat) : Store :=
  if h : ChunkOffset < iLen then
    match SealParse (some (sub Mmap (Offset + ChunkOffset) (iLen - ChunkOffset)))
        (Offset + ChunkOffset) Args with
    | .out (some Rec) =>
        let Rec2 := SealVerify (SealCopy2 Rec (nm "@pubkeyfile") Args (nm "@pubkeyfile")) Mmap
        let A1 := SealCopy2 Args (nm "@p") Rec2 (nm "@p")
        let A2 := SealCopy2 A1 (nm "@s") Rec2 (nm "@s")
        let A3 := SealCopy2 A2 (nm "@dnscachelast") Rec2 (nm "@dnscachelast")
        let A4 := SealCopy2 A3 (nm "@public") Rec2 (nm "@public")
        let A5 := SealCopy2 A4 (nm "@publicbin") Rec2 (nm "@publicbin")
        let Args2 := SealCopy2 A5 (nm "@sflags") Rec2 (nm "@sflags")
        chunkSeal SealVerify Mmap Offset iLen Args2
          (ChunkOffset +
            (if SealGetIindex Rec2 (nm "@RecEnd") 0 = 0 then 1
             else SealGetIindex Rec2 (nm "@RecEnd") 0))
    | _ => Args
  else Args
termination_by iLen - ChunkOffset
decreasing_by split <;> omega

/-- The chunk-stepping loop of `_Matroskawalk`: read a tag and a length,
stop on an invalid decode or when the chunk would overflow the buffer,
process a SEAL chunk, and advance past the declared length. -/
def walkFrom (SealVerify : Store → List Nat → Store) (Args : Store) (Mmap : List Nat)
    (Offset : Nat) : Store :=
  if ho : Offset < Mmap.length then
    match h1 : _MaReadData Mmap Offset with
    | (none, _) => Args
    | (some iTag, o1) =>
      match h2 : _MaReadData Mmap o1 with
      | (none, _) => Args
      | (some iLen, o2) =>
        if hov : Mmap.length < o2 + iLen then Args
        else
          walkFrom SealVerify
            (if iTag = 0x5345414C then chunkSeal SealVerify Mmap o2 iLen Args 0 else Args)
            Mmap (o2 + iLen)
  else Args
termination_by Mmap.length - Offset
decreasing_by
  have hloop : ∀ (b off0 val : Nat), off0 ≤ (_MaReadLoop Mmap b off0 val).2 := by
    intro b
    induction b with
    | zero => intro off0 val; simp [_MaReadLoop]
    | succ n ih =>
        intro off0 val
        simp only [_MaReadLoop]
        split
        · exact le_trans (Nat.le_succ _) (ih _ _)
        · exact Nat.le_refl _
  have hadv : ∀ (off v o : Nat), _MaReadData Mmap off = (some v, o) → off < o := by
    intro off v o h
    unfold _MaReadData at h
    split at h
    · simp at h
    · split at h
      · simp at h
      · have h2 := congrArg Prod.snd h
        simp only at h2
        have h3 := hloop (findB (Mmap.getD off 0 % 256)) (off + 1)
          ((Mmap.getD off 0 % 256) &&& (2 ^ (7 - findB (Mmap.getD off 0 % 256)) - 1))
        have h4 : (maReadRaw Mmap off).2 = o := h2
        unfold maReadRaw at h4
        omega
  have ha1 := hadv Offset iTag o1 h1
  have ha2 := hadv o1 iLen o2 h2
  omega

/-- `_Matroskawalk()`: walk the chunk structure from offset 0. -/
def _Matroskawalk (SealVerify : Store → List Nat → Store) (Args : Store)
    (Mmap : List Nat) : Store :=
  walkFrom SealVerify Args Mmap 0

/-- Proof auxiliary: list-structural version of `_MaReadLoop`, consuming up
to `b` leading bytes of the list. -/
def rLL : List Nat → Nat → Nat → Nat
  | _, 0, v => v
  | [], _+1, v => v
  | c :: t, b+1, v => rLL t b (v * 256 + c % 256)

/-! ## Theorems -/

theorem writeTail_length (n : Nat) : ∀ v, (_MaWriteTail v n).length = n := by
  induction n with
  | zero => intro v; rfl
  | succ n ih => intro v; simp [_MaWriteTail, ih]

theorem readLoop_eq_rLL (Mmap : List Nat) :
    ∀ (b Offset Val : Nat), Offset + b ≤ Mmap.length →
      _MaReadLoop Mmap b Offset Val = (rLL (Mmap.drop Offset) b Val, Offset + b) := by
  intro b
  induction b with
  | zero => intro off val h; simp [_MaReadLoop, rLL]
  | succ n ih =>
      intro off val h
      have hlt : off < Mmap.length := by omega
      have hdrop : Mmap.drop off = Mmap.getD off 0 :: Mmap.drop (off + 1) := by
        rw [List.drop_eq_getElem_cons hlt]
        congr 1
        simp [List.getD_eq_getElem?_getD, List.getElem?_eq_getElem hlt]
      rw [hdrop]
      simp only [_MaReadLoop, if_pos hlt, rLL]
      rw [ih (off + 1) _ (by omega)]
      simp [Prod.mk.injEq]
      omega

theorem rLL_append : ∀ (l1 l2 : List Nat) (n Val : Nat),
    rLL (l1 ++ l2) (l1.length + n) Val = rLL l2 n (rLL l1 l1.length Val) := by
  intro l1
  induction l1 with
  | nil => intro l2 n val; simp [rLL]
  | cons c t ih =>
      intro l2 n val
      have h1 : (c :: t).length + n = (t.length + n) + 1 := by simp; omega
      rw [h1]
      simp only [List.cons_append, rLL, List.length_cons]
      exact ih l2 n (val * 256 + c % 256)

theorem rLL_writeTail : ∀ (n v Val : Nat),
    rLL (_MaWriteTail v n) n Val = Val * 256 ^ n + v % 256 ^ n := by
  intro n
  induction n with
  | zero => intro v val; simp [_MaWriteTail, rLL, Nat.mod_one]
  | succ n ih =>
      intro v val
      have hlen : (_MaWriteTail (v >>> 8) n).length = n := writeTail_length n _
      have happ := rLL_append (_MaWriteTail (v >>> 8) n) [v &&& 255] 1 val
      rw [hlen] at happ
      have h255 : (0xff : Nat) = 255 := rfl
      calc rLL (_MaWriteTail v (n + 1)) (n + 1) val
          = rLL (_MaWriteTail (v >>> 8) n ++ [v &&& 255]) (n + 1) val := by
            simp [_MaWriteTail]
        _ = rLL [v &&& 255] 1 (rLL (_MaWriteTail (v >>> 8) n) n val) := happ
        _ = (rLL (_MaWriteTail (v >>> 8) n) n val) * 256 + (v &&& 255) % 256 := by
            simp [rLL]
        _ = (val * 256 ^ n + (v >>> 8) % 256 ^ n) * 256 + (v &&& 255) % 256 := by rw [ih]
        _ = val * 256 ^ (n + 1) + v % 256 ^ (n + 1) := by
            have h1 : v &&& 255 = v % 256 := by
              have h := Nat.and_pow_two_sub_one_eq_mod v 8
              norm_num at h
              exact h
            have h2 : v >>> 8 = v / 256 := by
              rw [Nat.shiftRight_eq_div_pow]
            have h3 : v % (256 * 256 ^ n) = v % 256 + 256 * (v / 256 % 256 ^ n) :=
              Nat.mod_mul
            have h4 : (256 : Nat) ^ (n + 1) = 256 * 256 ^ n := by ring
            have h5 : v % 256 % 256 = v % 256 := by omega
            rw [h1, h2, h4, h3, h5]
            ring

theorem maReadData_cons (c : Nat) (t : List Nat) (hc : c % 256 = c) (h0 : c ≠ 0) :
    _MaReadData (c :: t) 0 =
      (some (_MaReadLoop (c :: t) (findB c) 1 (c &&& (2 ^ (7 - findB c) - 1))).1,
       (_MaReadLoop (c :: t) (findB c) 1 (c &&& (2 ^ (7 - findB c) - 1))).2) := by
  unfold _MaReadData maReadRaw
  simp [hc, h0]

theorem numBytesGo_succ (v f num Max : Nat) :
    numBytesGo v (f + 1) num Max =
      if num < 8 ∧ Max ≤ v then numBytesGo v f (num + 1) ((Max <<< 7) ||| 0xff)
      else num := rfl

theorem numBytesGo_zero (v num Max : Nat) : numBytesGo v 0 num Max = num := rfl

set_option maxHeartbeats 800000 in
theorem numBytes_eq (v : Nat) :
    numBytes v =
      if v < 127 then 1 else if v < 16383 then 2 else if v < 2097151 then 3
      else if v < 268435455 then 4 else if v < 34359738367 then 5
      else if v < 4398046511103 then 6 else if v < 562949953421311 then 7 else 8 := by
  have m1 : ((127 : Nat) <<< 7) ||| 255 = 16383 := by decide
  have m2 : ((16383 : Nat) <<< 7) ||| 255 = 2097151 := by decide
  have m3 : ((2097151 : Nat) <<< 7) ||| 255 = 268435455 := by decide
  have m4 : ((268435455 : Nat) <<< 7) ||| 255 = 34359738367 := by decide
  have m5 : ((34359738367 : Nat) <<< 7) ||| 255 = 4398046511103 := by decide
  have m6 : ((4398046511103 : Nat) <<< 7) ||| 255 = 562949953421311 := by decide
  have s7 : numBytes v = if 1 < 8 ∧ 127 ≤ v then numBytesGo v 6 2 16383 else 1 := by
    rw [show numBytes v = numBytesGo v (6 + 1) 1 127 from rfl, numBytesGo_succ, m1]
  have s6 : numBytesGo v 6 2 16383
      = if 2 < 8 ∧ 16383 ≤ v then numBytesGo v 5 3 2097151 else 2 := by
    rw [show numBytesGo v 6 2 16383 = numBytesGo v (5 + 1) 2 16383 from rfl,
      numBytesGo_succ, m2]
  have s5 : numBytesGo v 5 3 2097151
      = if 3 < 8 ∧ 2097151 ≤ v then numBytesGo v 4 4 268435455 else 3 := by
    rw [show numBytesGo v 5 3 2097151 = numBytesGo v (4 + 1) 3 2097151 from rfl,
      numBytesGo_succ, m3]
  have s4 : numBytesGo v 4 4 268435455
      = if 4 < 8 ∧ 268435455 ≤ v then numBytesGo v 3 5 34359738367 else 4 := by
    rw [show numBytesGo v 4 4 268435455 = numBytesGo v (3 + 1) 4 268435455 from rfl,
      numBytesGo_succ, m4]
  have s3 : numBytesGo v 3 5 34359738367
      = if 5 < 8 ∧ 34359738367 ≤ v then numBytesGo v 2 6 4398046511103 else 5 := by
    rw [show numBytesGo v 3 5 34359738367 = numBytesGo v (2 + 1) 5 34359738367 from rfl,
      numBytesGo_succ, m5]
  have s2 : numBytesGo v 2 6 4398046511103
      = if 6 < 8 ∧ 4398046511103 ≤ v then numBytesGo v 1 7 562949953421311 else 6 := by
    rw [show numBytesGo v 2 6 4398046511103 = numBytesGo v (1 + 1) 6 4398046511103 from rfl,
      numBytesGo_succ, m6]
  have s1 : numBytesGo v 1 7 562949953421311
      = if 7 < 8 ∧ 562949953421311 ≤ v then numBytesGo v 0 8 72057594037927935 else 7 := by
    rw [show numBytesGo v 1 7 562949953421311
          = numBytesGo v (0 + 1) 7 562949953421311 from rfl, numBytesGo_succ]
    rw [show ((562949953421311 : Nat) <<< 7) ||| 255 = 72057594037927935 from by decide]
  rw [s7, s6, s5, s4, s3, s2, s1, numBytesGo_zero]
  split_ifs <;> omega

theorem numBytes_pos (v : Nat) : 1 ≤ numBytes v := by
  rw [numBytes_eq]; split_ifs <;> omega

theorem maWriteBytes_length (v : Nat) : (maWriteBytes v).length = numBytes v := by
  have := numBytes_pos v
  simp [maWriteBytes, writeTail_length]
  omega

theorem ebmlB1 : ∀ d, d < 2 ^ (8 - 1) →
    ((1 <<< (8 - 1)) ||| (d &&& 0xff &&& (0xff >>> (1 - 1))) = 2 ^ (8 - 1) + d ∧
     findB (2 ^ (8 - 1) + d) = 1 - 1 ∧
     (2 ^ (8 - 1) + d) &&& (2 ^ (7 - (1 - 1)) - 1) = d) := by decide

theorem ebmlB2 : ∀ d, d < 2 ^ (8 - 2) →
    ((1 <<< (8 - 2)) ||| (d &&& 0xff &&& (0xff >>> (2 - 1))) = 2 ^ (8 - 2) + d ∧
     findB (2 ^ (8 - 2) + d) = 2 - 1 ∧
     (2 ^ (8 - 2) + d) &&& (2 ^ (7 - (2 - 1)) - 1) = d) := by decide

theorem ebmlB3 : ∀ d, d < 2 ^ (8 - 3) →
    ((1 <<< (8 - 3)) ||| (d &&& 0xff &&& (0xff >>> (3 - 1))) = 2 ^ (8 - 3) + d ∧
     findB (2 ^ (8 - 3) + d) = 3 - 1 ∧
     (2 ^ (8 - 3) + d) &&& (2 ^ (7 - (3 - 1)) - 1) = d) := by decide

theorem ebmlB4 : ∀ d, d < 2 ^ (8 - 4) →
    ((1 <<< (8 - 4)) ||| (d &&& 0xff &&& (0xff >>> (4 - 1))) = 2 ^ (8 - 4) + d ∧
     findB (2 ^ (8 - 4) + d) = 4 - 1 ∧
     (2 ^ (8 - 4) + d) &&& (2 ^ (7 - (4 - 1)) - 1) = d) := by decide

theorem ebmlB5 : ∀ d, d < 2 ^ (8 - 5) →
    ((1 <<< (8 - 5)) ||| (d &&& 0xff &&& (0xff >>> (5 - 1))) = 2 ^ (8 - 5) + d ∧
     findB (2 ^ (8 - 5) + d) = 5 - 1 ∧
     (2 ^ (8 - 5) + d) &&& (2 ^ (7 - (5 - 1)) - 1) = d) := by decide

theorem ebmlB6 : ∀ d, d < 2 ^ (8 - 6) →
    ((1 <<< (8 - 6)) ||| (d &&& 0xff &&& (0xff >>> (6 - 1))) = 2 ^ (8 - 6) + d ∧
     findB (2 ^ (8 - 6) + d) = 6 - 1 ∧
     (2 ^ (8 - 6) + d) &&& (2 ^ (7 - (6 - 1)) - 1) = d) := by decide

theorem ebmlB7 : ∀ d, d < 2 ^ (8 - 7) →
    ((1 <<< (8 - 7)) ||| (d &&& 0xff &&& (0xff >>> (7 - 1))) = 2 ^ (8 - 7) + d ∧
     findB (2 ^ (8 - 7) + d) = 7 - 1 ∧
     (2 ^ (8 - 7) + d) &&& (2 ^ (7 - (7 - 1)) - 1) = d) := by decide

theorem ebmlB8 : ∀ d, d < 2 ^ (8 - 8) →
    ((1 <<< (8 - 8)) ||| (d &&& 0xff &&& (0xff >>> (8 - 1))) = 2 ^ (8 - 8) + d ∧
     findB (2 ^ (8 - 8) + d) = 8 - 1 ∧
     (2 ^ (8 - 8) + d) &&& (2 ^ (7 - (8 - 1)) - 1) = d) := by decide

theorem maRT_general (v k : Nat) (hk1 : 1 ≤ k) (hnb : numBytes v = k)
    (hdiv : v / 2 ^ (8 * (k - 1)) < 2 ^ (8 - k))
    (hb1 : (1 <<< (8 - k)) ||| ((v / 2 ^ (8 * (k - 1))) &&& 0xff &&& (0xff >>> (k - 1)))
           = 2 ^ (8 - k) + v / 2 ^ (8 * (k - 1)))
    (hb2 : findB (2 ^ (8 - k) + v / 2 ^ (8 * (k - 1))) = k - 1)
    (hb3 : (2 ^ (8 - k) + v / 2 ^ (8 * (k - 1))) &&& (2 ^ (7 - (k - 1)) - 1)
           = v / 2 ^ (8 * (k - 1))) :
    _MaReadData (maWriteBytes v) 0 = (some v, k) ∧ (maWriteBytes v).length = k := by
  have hsh : v >>> (8 * (k - 1)) = v / 2 ^ (8 * (k - 1)) := Nat.shiftRight_eq_div_pow v _
  have hbytes : maWriteBytes v
      = (2 ^ (8 - k) + v / 2 ^ (8 * (k - 1))) :: _MaWriteTail v (k - 1) := by
    unfold maWriteBytes
    rw [hnb, hsh, hb1]
  have hlen : (maWriteBytes v).length = k := by
    rw [hbytes]
    simp [writeTail_length]
    omega
  refine ⟨?_, hlen⟩
  have hple : (2 : Nat) ^ (8 - k) ≤ 128 := by
    calc (2 : Nat) ^ (8 - k) ≤ 2 ^ 7 := Nat.pow_le_pow_right (by norm_num) (by omega)
    _ = 128 := by norm_num
  have hpos : 0 < (2 : Nat) ^ (8 - k) := Nat.two_pow_pos _
  have hb0lt : 2 ^ (8 - k) + v / 2 ^ (8 * (k - 1)) < 256 := by omega
  have hb0pos : 2 ^ (8 - k) + v / 2 ^ (8 * (k - 1)) ≠ 0 := by omega
  rw [hbytes, maReadData_cons _ _ (Nat.mod_eq_of_lt hb0lt) hb0pos, hb2, hb3]
  have hL : 1 + (k - 1)
      ≤ ((2 ^ (8 - k) + v / 2 ^ (8 * (k - 1))) :: _MaWriteTail v (k - 1)).length := by
    simp [writeTail_length]
    omega
  rw [readLoop_eq_rLL _ (k - 1) 1 _ hL]
  simp only [List.drop_succ_cons, List.drop_zero]
  rw [rLL_writeTail]
  have h2 : (256 : Nat) ^ (k - 1) = 2 ^ (8 * (k - 1)) := by
    rw [pow_mul]
    norm_num
  have h3 : v / 2 ^ (8 * (k - 1)) * 256 ^ (k - 1) + v % 256 ^ (k - 1) = v := by
    rw [h2, Nat.mul_comm]
    exact Nat.div_add_mod v _
  rw [h3]
  simp [Prod.mk.injEq]
  omega

theorem maRT1 (v : Nat) (h2 : v < 127) :
    _MaReadData (maWriteBytes v) 0 = (some v, 1) ∧ (maWriteBytes v).length = 1 := by
  have hnb : numBytes v = 1 := by rw [numBytes_eq]; split_ifs <;> omega
  have hdiv : v / 2 ^ (8 * (1 - 1)) < 2 ^ (8 - 1) := by norm_num; omega
  obtain ⟨b1, b2, b3⟩ := ebmlB1 (v / 2 ^ (8 * (1 - 1))) hdiv
  exact maRT_general v 1 (by norm_num) hnb hdiv b1 b2 b3

theorem maRT2 (v : Nat) (h1 : 127 ≤ v) (h2 : v < 16383) :
    _MaReadData (maWriteBytes v) 0 = (some v, 2) ∧ (maWriteBytes v).length = 2 := by
  have hnb : numBytes v = 2 := by rw [numBytes_eq]; split_ifs <;> omega
  have hdiv : v / 2 ^ (8 * (2 - 1)) < 2 ^ (8 - 2) := by norm_num; omega
  obtain ⟨b1, b2, b3⟩ := ebmlB2 (v / 2 ^ (8 * (2 - 1))) hdiv
  exact maRT_general v 2 (by norm_num) hnb hdiv b1 b2 b3

theorem maRT3 (v : Nat) (h1 : 16383 ≤ v) (h2 : v < 2097151) :
    _MaReadData (maWriteBytes v) 0 = (some v, 3) ∧ (maWriteBytes v).length = 3 := by
  have hnb : numBytes v = 3 := by rw [numBytes_eq]; split_ifs <;> omega
  have hdiv : v / 2 ^ (8 * (3 - 1)) < 2 ^ (8 - 3) := by norm_num; omega
  obtain ⟨b1, b2, b3⟩ := ebmlB3 (v / 2 ^ (8 * (3 - 1))) hdiv
  exact maRT_general v 3 (by norm_num) hnb hdiv b1 b2 b3

theorem maRT4 (v : Nat) (h1 : 2097151 ≤ v) (h2 : v < 268435455) :
    _MaReadData (maWriteBytes v) 0 = (some v, 4) ∧ (maWriteBytes v).length = 4 := by
  have hnb : numBytes v = 4 := by rw [numBytes_eq]; split_ifs <;> omega
  have hdiv : v / 2 ^ (8 * (4 - 1)) < 2 ^ (8 - 4) := by norm_num; omega
  obtain ⟨b1, b2, b3⟩ := ebmlB4 (v / 2 ^ (8 * (4 - 1))) hdiv
  exact maRT_general v 4 (by norm_num) hnb hdiv b1 b2 b3

theorem maRT5 (v : Nat) (h1 : 268435455 ≤ v) (h2 : v < 34359738367) :
    _MaReadData (maWriteBytes v) 0 = (some v, 5) ∧ (maWriteBytes v).length = 5 := by
  have hnb : numBytes v = 5 := by rw [numBytes_eq]; split_ifs <;> omega
  have hdiv : v / 2 ^ (8 * (5 - 1)) < 2 ^ (8 - 5) := by norm_num; omega
  obtain ⟨b1, b2, b3⟩ := ebmlB5 (v / 2 ^ (8 * (5 - 1))) hdiv
  exact maRT_general v 5 (by norm_num) hnb hdiv b1 b2 b3

theorem maRT6 (v : Nat) (h1 : 34359738367 ≤ v) (h2 : v < 4398046511103) :
    _MaReadData (maWriteBytes v) 0 = (some v, 6) ∧ (maWriteBytes v).length = 6 := by
  have hnb : numBytes v = 6 := by rw [numBytes_eq]; split_ifs <;> omega
  have hdiv : v / 2 ^ (8 * (6 - 1)) < 2 ^ (8 - 6) := by norm_num; omega
  obtain ⟨b1, b2, b3⟩ := ebmlB6 (v / 2 ^ (8 * (6 - 1))) hdiv
  exact maRT_general v 6 (by norm_num) hnb hdiv b1 b2 b3

theorem maRT7 (v : Nat) (h1 : 4398046511103 ≤ v) (h2 : v < 562949953421311) :
    _MaReadData (maWriteBytes v) 0 = (some v, 7) ∧ (maWriteBytes v).length = 7 := by
  have hnb : numBytes v = 7 := by rw [numBytes_eq]; split_ifs <;> omega
  have hdiv : v / 2 ^ (8 * (7 - 1)) < 2 ^ (8 - 7) := by norm_num; omega
  obtain ⟨b1, b2, b3⟩ := ebmlB7 (v / 2 ^ (8 * (7 - 1))) hdiv
  exact maRT_general v 7 (by norm_num) hnb hdiv b1 b2 b3

theorem maRT8 (v : Nat) (h1 : 562949953421311 ≤ v) (h2 : v < 72057594037927936) :
    _MaReadData (maWriteBytes v) 0 = (some v, 8) ∧ (maWriteBytes v).length = 8 := by
  have hnb : numBytes v = 8 := by rw [numBytes_eq]; split_ifs <;> omega
  have hdiv : v / 2 ^ (8 * (8 - 1)) < 2 ^ (8 - 8) := by norm_num; omega
  obtain ⟨b1, b2, b3⟩ := ebmlB8 (v / 2 ^ (8 * (8 - 1))) hdiv
  exact maRT_general v 8 (by norm_num) hnb hdiv b1 b2 b3

theorem SealSearch_map_replace (f : List Nat) (t : Nat) (vl : SealValue) :
    ∀ st : Store, (SealSearch st f).isSome →
      SealSearch (st.map (fun fl => if fl.fname == f then (⟨t, f, vl⟩ : sealfield) else fl)) f
        = some ⟨t, f, vl⟩ := by
  intro st
  induction st with
  | nil => intro h; simp [SealSearch] at h
  | cons hd tl ih =>
      intro h
      by_cases hh : (hd.fname == f) = true
      · unfold SealSearch
        simp only [List.map_cons, hh, if_true]
        rw [List.find?_cons_of_pos]
        simp
      · have h' : (SealSearch tl f).isSome := by
          unfold SealSearch at h
          rw [List.find?_cons_of_neg _ (by simp_all)] at h
          exact h
        unfold SealSearch
        simp only [List.map_cons, hh, if_false]
        rw [List.find?_cons_of_neg _ (by simp_all)]
        exact ih h'

theorem SealSearch_append_single (f : List Nat) (t : Nat) (vl : SealValue) :
    ∀ st : Store, SealSearch st f = none →
      SealSearch (st ++ [(⟨t, f, vl⟩ : sealfield)]) f = some ⟨t, f, vl⟩ := by
  intro st
  induction st with
  | nil => intro _; simp [SealSearch]
  | cons hd tl ih =>
      intro h
      by_cases hh : (hd.fname == f) = true
      · simp [SealSearch, List.find?_cons, hh] at h
      · have h' : SealSearch tl f = none := by
          simpa [SealSearch, List.find?_cons, hh] using h
        unfold SealSearch
        simp only [List.cons_append]
        rw [List.find?_cons_of_neg _ (by simp_all)]
        exact ih h'

theorem SealSearch_setFieldVal (st : Store) (f : List Nat) (t : Nat) (vl : SealValue) :
    SealSearch (setFieldVal st f t vl) f = some ⟨t, f, vl⟩ := by
  unfold setFieldVal
  split
  · next h => exact SealSearch_map_replace f t vl st h
  · next h =>
      have hn : SealSearch st f = none := by
        cases hs : SealSearch st f
        · rfl
        · rw [hs] at h; simp at h
      exact SealSearch_append_single f t vl st hn

/-- C3: for every value in [0, 2^56-1], EBML-encoding with `_MaWriteData`
and decoding the produced bytes with `_MaReadData` starting at offset 0
yields the value again, with the offset advanced exactly past the encoded
bytes; the store holds exactly those bytes under the written field. -/
theorem maWriteData_roundtrip (v : Nat) (Rec : Store) (f : List Nat) (hv : v < 2 ^ 56) :
    _MaReadData (maWriteBytes v) 0 = (some v, (maWriteBytes v).length) ∧
    SealSearch (_MaWriteData Rec f v) f = some ⟨120, f, .bytes (maWriteBytes v)⟩ := by
  constructor
  · have hv' : v < 72057594037927936 := by
      have h56 : (2 : Nat) ^ 56 = 72057594037927936 := by norm_num
      omega
    by_cases c1 : v < 127
    · obtain ⟨ha, hb⟩ := maRT1 v c1
      rw [ha, hb]
    · by_cases c2 : v < 16383
      · obtain ⟨ha, hb⟩ := maRT2 v (by omega) c2
        rw [ha, hb]
      · by_cases c3 : v < 2097151
        · obtain ⟨ha, hb⟩ := maRT3 v (by omega) c3
          rw [ha, hb]
        · by_cases c4 : v < 268435455
          · obtain ⟨ha, hb⟩ := maRT4 v (by omega) c4
            rw [ha, hb]
          · by_cases c5 : v < 34359738367
            · obtain ⟨ha, hb⟩ := maRT5 v (by omega) c5
              rw [ha, hb]
            · by_cases c6 : v < 4398046511103
              · obtain ⟨ha, hb⟩ := maRT6 v (by omega) c6
                rw [ha, hb]
              · by_cases c7 : v < 562949953421311
                · obtain ⟨ha, hb⟩ := maRT7 v (by omega) c7
                  rw [ha, hb]
                · obtain ⟨ha, hb⟩ := maRT8 v (by omega) (by omega)
                  rw [ha, hb]
  · unfold _MaWriteData
    exact SealSearch_setFieldVal Rec f 120 _

/-- Witness for C3 at v = 300 (two-byte encoding). -/
theorem maWriteData_roundtrip_witness :
    300 < 2 ^ 56 ∧
    (_MaReadData (maWriteBytes 300) 0 = (some 300, (maWriteBytes 300).length) ∧
     SealSearch (_MaWriteData [] (nm "@BLOCK") 300) (nm "@BLOCK")
       = some ⟨120, nm "@BLOCK", .bytes (maWriteBytes 300)⟩) :=
  ⟨by norm_num, maWriteData_roundtrip 300 [] (nm "@BLOCK") (by norm_num)⟩

/-- C4 counterexample: in the buffer [0x40] the leading byte declares two
total bytes (first set bit at position 6, so one continuation byte) while
none remain, yet `_MaReadData` returns the value 0 assembled from the
truncated data — not the invalid sentinel. -/
theorem maReadData_truncation_counterexample :
    findB (64 % 256) = 1 ∧ ([(64 : Nat)].length = 1) ∧
    _MaReadData [64] 0 = (some 0, 1) := by decide

/-- C4 amended: `_MaReadData` returns the invalid sentinel exactly when the
offset is at or past the end of the buffer or the leading byte is zero; a
length that exceeds the remaining bytes is not a fault — the value is
assembled from the bytes present, the offset stopping at the buffer end. -/
theorem maReadData_sentinel_iff (Mmap : List Nat) (Offset : Nat) :
    (_MaReadData Mmap Offset).1 = none ↔
      (Mmap.length ≤ Offset ∨ Mmap.getD Offset 0 % 256 = 0) := by
  unfold _MaReadData
  split_ifs with h1 h2
  · exact iff_of_true rfl (Or.inl h1)
  · exact iff_of_true rfl (Or.inr h2)
  · exact iff_of_false (by simp) (by tauto)

/-- C5 counterexample: 127 fits in one byte (127 < 2^7, and one byte keeps
7 value bits after the marker) but `_MaWriteData` emits two bytes, because
the size loop tests `Value >= MaxValue`, promoting each all-ones pattern to
the next size. -/
theorem maWriteData_minimal_counterexample :
    (127 : Nat) < 2 ^ (7 * 1) ∧ maWriteBytes 127 = [64, 127] ∧
    ¬ ((maWriteBytes 127).length ≤ 1) := by decide

set_option maxHeartbeats 1600000 in
/-- C5 amended: the encoder picks the smallest byte count k in 1..8 such
that the value is below 2^(7k) - 1: every value below 2^(7k) - 1 is encoded
in at most k bytes, and every value at or above 2^(7k) - 1 (k < 8) takes
more than k. -/
theorem maWriteData_minimal_amended (v k : Nat) (hk1 : 1 ≤ k) (hk8 : k ≤ 8) :
    (v < 2 ^ (7 * k) - 1 → (maWriteBytes v).length ≤ k) ∧
    (k < 8 → 2 ^ (7 * k) - 1 ≤ v → k < (maWriteBytes v).length) := by
  have hL := maWriteBytes_length v
  rw [numBytes_eq] at hL
  interval_cases k <;>
    refine ⟨fun h => ?_, fun h8 h => ?_⟩ <;>
    (try norm_num at h) <;>
    split_ifs at hL <;>
    omega

/-- Witness for C5's amended theorem at v = 5, k = 1. -/
theorem maWriteData_minimal_amended_witness :
    (maWriteBytes 5).length ≤ 1 :=
  (maWriteData_minimal_amended 5 1 (by norm_num) (by norm_num)).1 (by norm_num)

/-- C6 counterexample: the NUL-free two-byte sequence backslash,'x' is not
restored by encode-then-decode: `SealStrEncode` leaves the backslash
unescaped and `SealStrDecode` then consumes it as quoting. -/
theorem strCodec_backslash_counterexample :
    (0 : Nat) ∉ [92, 120] ∧
    SealStrDecode (SealStrEncode [92, 120]) = [120] ∧
    SealStrDecode (SealStrEncode [92, 120]) ≠ [92, 120] := by decide

/-- C6 amended: for every byte sequence containing no NUL byte and no
backslash, applying `SealStrEncode` and then `SealStrDecode` yields the
original byte sequence (hence its original length). -/
theorem strCodec_roundtrip (l : List Nat) (h0 : 0 ∉ l) (hbs : 92 ∉ l) :
    SealStrDecode (SealStrEncode l) = l := by
  induction l with
  | nil => rfl
  | cons c t ih =>
      have hcb : c ≠ 92 := fun h => hbs (by simp [h])
      have h0' : (0 : Nat) ∉ t := fun h => h0 (List.mem_cons_of_mem _ h)
      have hb' : (92 : Nat) ∉ t := fun h => hbs (List.mem_cons_of_mem _ h)
      show SealStrDecode (sealStrEsc c ++ SealStrEncode t) = c :: t
      by_cases hq : c = 39 ∨ c = 34 ∨ c = 0
      · rw [show sealStrEsc c = [92, c] from by simp [sealStrEsc, hq]]
        show SealStrDecode (92 :: c :: SealStrEncode t) = c :: t
        rw [show SealStrDecode (92 :: c :: SealStrEncode t)
              = c :: SealStrDecode (SealStrEncode t) from by
            rw [SealStrDecode.eq_def]; simp]
        rw [ih h0' hb']
      · rw [show sealStrEsc c = [c] from by simp [sealStrEsc, hq]]
        show SealStrDecode (c :: SealStrEncode t) = c :: t
        rw [show SealStrDecode (c :: SealStrEncode t)
              = c :: SealStrDecode (SealStrEncode t) from by
            rw [SealStrDecode.eq_def]; simp [hcb]]
        rw [ih h0' hb']

/-- Witness for C6's amended theorem on the bytes "hi". -/
theorem strCodec_roundtrip_witness :
    (0 : Nat) ∉ [104, 105] ∧ (92 : Nat) ∉ [104, 105] ∧
    SealStrDecode (SealStrEncode [104, 105]) = [104, 105] :=
  ⟨by decide, by decide, strCodec_roundtrip [104, 105] (by decide) (by decide)⟩

/-- C7: `SealXmlDecode` on the single hex entity `&#x100;` emits the two
big-endian bytes 0x01 0x00 (not UTF-8) but returns a third, stale byte 0x78
('x'): the numeric branch advances the write index once more than it writes
and skips one input byte, so the decoded value is not exactly the
big-endian sequence. -/
theorem xmlDecode_numeric_entity_eval :
    SealXmlDecode (nm "&#x100;") = [1, 0, 120] ∧
    SealXmlDecode (nm "&#x100;") ≠ [1, 0] := by decide

/-- C8: parsing the xmp:seal-form record whose &quot;-quoted info value is
Yeah&amp;&#65;bb&#x44;cc&#x09;dd stores 14 bytes under info, but they are
"Yeah&AmbD&c\x095d" — each numeric entity leaves one stale byte and drops
the next input byte — not the specified "Yeah&AbbDcc\x09dd". -/
theorem sealParse_xmp_entity_eval :
    SealParse
        (some (nm "<xmp:seal>info=&quot;Yeah&amp;&#65;bb&#x44;cc&#x09;dd&quot;</xmp:seal>"))
        0 []
      = .out (some
          [⟨99, nm "info", .bytes [89, 101, 97, 104, 38, 65, 109, 98, 68, 38, 99, 9, 53, 100]⟩,
           ⟨73, nm "@RecEnd", .ints [70]⟩]) ∧
    ([89, 101, 97, 104, 38, 65, 109, 98, 68, 38, 99, 9, 53, 100] : List Nat)
      ≠ nm "Yeah&AbbDcc\tdd" := by decide

/-- C9: on the buffer `<seal a= q` followed by the valid record
`<seal b='2'/>`, SealParse does find the valid record, but the returned
store also retains the field `a` from the abandoned attempt: the
bad-attribute transition (seal-parse.cpp line 464) re-enters State 0
without setting IsBad, so the partial record is never freed before the
valid match — the abandoned attempt is not fully discarded. -/
theorem sealParse_retained_field_eval :
    SealParse (some (nm "<seal a= q<seal b=\x272\x27/>")) 0 []
      = .out (some [⟨99, nm "a", .bytes []⟩, ⟨99, nm "b", .bytes [50]⟩,
                    ⟨73, nm "@RecEnd", .ints [23]⟩]) ∧
    (SealSearch [⟨99, nm "a", .bytes []⟩, ⟨99, nm "b", .bytes [50]⟩,
                 ⟨73, nm "@RecEnd", .ints [23]⟩] (nm "a")).isSome = true := by decide

/-- C1: on the 11-byte buffer "<seal abcde", SealParse reads Text[11] — one
byte past the end: the attribute-name scan stops at the buffer end and the
`Text[i]=='='` check that follows (seal-parse.cpp line 463) has no bounds
guard.  In the embedding, where every unguarded read yields an Option, the
out-of-range branch is reached at index 11. -/
theorem sealParse_oob_eval :
    SealParse (some (nm "<seal abcde")) 0 [] = .oob 11 ∧
    (nm "<seal abcde").length = 11 := by decide

/-- C10: SealParse returns no record for a NULL text pointer and for every
buffer of fewer than 10 bytes, regardless of the buffer content, the base
offset, and the context store. -/
theorem sealParse_min_length (t : Option (List Nat)) (Offset : Nat) (Args : Store)
    (h : t = none ∨ ∃ l, t = some l ∧ l.length < 10) :
    SealParse t Offset Args = .out none := by
  rcases h with h | ⟨l, rfl, hl⟩
  · rw [h]; rfl
  · simp [SealParse, hl]

/-- Witness for C10 on a 3-byte buffer. -/
theorem sealParse_min_length_witness :
    SealParse (some [60, 115, 101]) 0 [] = .out none :=
  sealParse_min_length (some [60, 115, 101]) 0 [] (Or.inr ⟨_, rfl, by decide⟩)

/-- C2: the Matroska walk is a total function of its input (walkFrom and
chunkSeal are defined by well-founded recursion, so _Matroskawalk
terminates on every buffer), and it stops silently, returning the context
store with everything accumulated so far, whenever the walk is at or past
the end of the buffer, the tag decode faults, the length decode faults, or
the declared chunk length would extend past the end; otherwise it advances
past the chunk, threading the accumulated store forward. -/
theorem matroskaWalk_stops (SealVerify : Store → List Nat → Store) (Args : Store)
    (Mmap : List Nat) (Offset : Nat) :
    (_Matroskawalk SealVerify Args Mmap = walkFrom SealVerify Args Mmap 0) ∧
    (Mmap.length ≤ Offset → walkFrom SealVerify Args Mmap Offset = Args) ∧
    ((_MaReadData Mmap Offset).1 = none → walkFrom SealVerify Args Mmap Offset = Args) ∧
    (∀ t o1, _MaReadData Mmap Offset = (some t, o1) →
      (_MaReadData Mmap o1).1 = none → walkFrom SealVerify Args Mmap Offset = Args) ∧
    (∀ t o1 l o2, _MaReadData Mmap Offset = (some t, o1) →
      _MaReadData Mmap o1 = (some l, o2) → Mmap.length < o2 + l →
      walkFrom SealVerify Args Mmap Offset = Args) ∧
    (∀ t o1 l o2, _MaReadData Mmap Offset = (some t, o1) →
      _MaReadData Mmap o1 = (some l, o2) → o2 + l ≤ Mmap.length →
      walkFrom SealVerify Args Mmap Offset =
        walkFrom SealVerify
          (if t = 0x5345414C then chunkSeal SealVerify Mmap o2 l Args 0 else Args)
          Mmap (o2 + l)) := by
  refine ⟨rfl, ?_, ?_, ?_, ?_, ?_⟩
  · intro h
    rw [walkFrom.eq_def]
    split
    · next ho => omega
    · rfl
  · intro h
    rw [walkFrom.eq_def]
    split
    · next ho =>
        split
        · rfl
        · next iTag o1x heq => rw [heq] at h; simp at h
    · rfl
  · intro t o1 hA h
    rw [walkFrom.eq_def]
    split
    · next ho =>
        split
        · rfl
        · next iTag o1x heq =>
            rw [hA] at heq
            injection heq with h1 h2
            injection h1 with h1
            subst h1
            subst h2
            split
            · rfl
            · next iLen o2x heq2 => rw [heq2] at h; simp at h
    · rfl
  · intro t o1 l o2 hA hB hov
    rw [walkFrom.eq_def]
    split
    · next ho =>
        split
        · next heq => simp [hA] at heq
        · next iTag o1x heq =>
            rw [hA] at heq
            injection heq with h1 h2
            injection h1 with h1
            subst h1
            subst h2
            split
            · next heq2 => simp [hB] at heq2
            · next iLen o2x heq2 =>
                rw [hB] at heq2
                injection heq2 with h3 h4
                injection h3 with h3
                subst h3
                subst h4
                split
                · rfl
                · next hovx => omega
    · rfl
  · intro t o1 l o2 hA hB hle
    rw [walkFrom.eq_def]
    split
    · next ho =>
        split
        · next heq => simp [hA] at heq
        · next iTag o1x heq =>
            rw [hA] at heq
            injection heq with h1 h2
            injection h1 with h1
            subst h1
            subst h2
            split
            · next heq2 => simp [hB] at heq2
            · next iLen o2x heq2 =>
                rw [hB] at heq2
                injection heq2 with h3 h4
                injection h3 with h3
                subst h3
                subst h4
                split
                · next hovx => omega
                · rfl
    · next ho =>
        exfalso
        unfold _MaReadData at hA
        rw [if_pos (by omega)] at hA
        simp at hA

/-- Witness for C2 at the one-byte buffer [0]: the tag decode faults (the
leading byte is zero) and the walk returns the context store unchanged. -/
theorem matroskaWalk_stops_witness :
    walkFrom (fun r _ => r) [] [0] 0 = [] :=
  (matroskaWalk_stops (fun r _ => r) [] [0] 0).2.2.1 (by decide)
